import Mathlib

/-!
Verification of the pod-lifecycle controller (`pod.go`) of the jetpack
container runtime.  The Go source is shallowly embedded: pure code becomes
Lean functions, stateful code threads explicit state, OS side effects are
represented by an environment record (results of reads and stats, success
of writes) plus an ordered log of attempted filesystem mutations.

Go strings are embedded as Lean `String` values manipulated through their
`data : List Char` field, because byte-wise lexicographic order on UTF-8
coincides with code-point lexicographic order.
-/

namespace Jetpack

/-! ### String helpers (embedding Go string primitives) -/

/-- Lexicographic order on character lists via code points: the embedding of
Go's byte-wise string comparison used by `sort.Strings`. -/
def charsLe : List Char → List Char → Bool
  | [], _ => true
  | _ :: _, [] => false
  | a :: as, b :: bs => if a.toNat = b.toNat then charsLe as bs else decide (a.toNat < b.toNat)

/-- Propositional form of the string order. -/
def StrLe (a b : String) : Prop := charsLe a.data b.data = true

instance : DecidableRel StrLe := fun a b => by unfold StrLe; infer_instance

theorem char_toNat_inj {a b : Char} (h : a.toNat = b.toNat) : a = b := by
  cases a; cases b
  simp only [Char.toNat] at h
  congr 1
  exact UInt32.ext h

theorem string_data_inj {a b : String} (h : a.data = b.data) : a = b :=
  congrArg String.mk h

theorem charsLe_total : ∀ as bs, charsLe as bs = true ∨ charsLe bs as = true
  | [], _ => Or.inl rfl
  | _ :: _, [] => Or.inr rfl
  | a :: as, b :: bs => by
    by_cases hab : a.toNat = b.toNat
    · rcases charsLe_total as bs with h | h
      · exact Or.inl (by simp [charsLe, hab, h])
      · exact Or.inr (by simp [charsLe, hab.symm, h])
    · rcases Nat.lt_or_ge a.toNat b.toNat with h | h
      · exact Or.inl (by simp [charsLe, hab, h])
      · have hlt : b.toNat < a.toNat := lt_of_le_of_ne h (Ne.symm hab)
        refine Or.inr ?_
        simp only [charsLe]
        rw [if_neg (Ne.symm hab)]
        simpa using hlt

theorem charsLe_trans : ∀ as bs cs, charsLe as bs = true → charsLe bs cs = true →
    charsLe as cs = true
  | [], _, _ => by intro _ _; rfl
  | _ :: _, [], _ => by intro h _; simp [charsLe] at h
  | _ :: _, _ :: _, [] => by intro _ h; simp [charsLe] at h
  | a :: as, b :: bs, c :: cs => by
    intro h1 h2
    by_cases hab : a.toNat = b.toNat <;> by_cases hbc : b.toNat = c.toNat
    · simp only [charsLe, hab, if_pos rfl] at h1
      simp only [charsLe, hbc, if_pos rfl] at h2
      simp [charsLe, hab.trans hbc, charsLe_trans as bs cs h1 h2]
    · simp only [charsLe, hab, if_pos rfl] at h1
      simp only [charsLe, if_neg hbc, decide_eq_true_eq] at h2
      have : a.toNat < c.toNat := hab ▸ h2
      simp [charsLe, Nat.ne_of_lt this, this]
    · simp only [charsLe, if_neg hab, decide_eq_true_eq] at h1
      have : a.toNat < c.toNat := hbc ▸ h1
      simp [charsLe, Nat.ne_of_lt this, this]
    · simp only [charsLe, if_neg hab, decide_eq_true_eq] at h1
      simp only [charsLe, if_neg hbc, decide_eq_true_eq] at h2
      have : a.toNat < c.toNat := h1.trans h2
      simp [charsLe, Nat.ne_of_lt this, this]

theorem charsLe_antisymm : ∀ as bs, charsLe as bs = true → charsLe bs as = true → as = bs
  | [], [] => by intro _ _; rfl
  | [], _ :: _ => by intro _ h; simp [charsLe] at h
  | _ :: _, [] => by intro h _; simp [charsLe] at h
  | a :: as, b :: bs => by
    intro h1 h2
    by_cases hab : a.toNat = b.toNat
    · simp only [charsLe, hab, if_pos rfl] at h1
      simp only [charsLe, hab.symm, if_pos rfl] at h2
      rw [char_toNat_inj hab, charsLe_antisymm as bs h1 h2]
    · simp only [charsLe, if_neg hab, decide_eq_true_eq] at h1
      simp only [charsLe, if_neg (Ne.symm hab), decide_eq_true_eq] at h2
      exact absurd (h1.trans h2) (lt_irrefl _)

instance : IsTotal String StrLe := ⟨fun a b => charsLe_total a.data b.data⟩

instance : IsTrans String StrLe := ⟨fun a b c => charsLe_trans a.data b.data c.data⟩

instance : IsAntisymm String StrLe :=
  ⟨fun a b h1 h2 => string_data_inj (charsLe_antisymm a.data b.data h1 h2)⟩

/-- Embedding of Go's `sort.Strings`: any correct sort of strings yields the
same list (sorted permutations are unique under a linear order), so an
insertion sort is a faithful model. -/
def sortStrings (l : List String) : List String := List.insertionSort StrLe l

theorem sortStrings_sorted (l : List String) : List.Sorted StrLe (sortStrings l) :=
  List.sorted_insertionSort StrLe l

theorem sortStrings_perm (l : List String) : (sortStrings l).Perm l :=
  List.perm_insertionSort StrLe l

theorem sortStrings_eq_of_perm {l1 l2 : List String} (h : l1.Perm l2) :
    sortStrings l1 = sortStrings l2 :=
  List.eq_of_perm_of_sorted
    ((sortStrings_perm l1).trans (h.trans (sortStrings_perm l2).symm))
    (sortStrings_sorted l1) (sortStrings_sorted l2)

/-- Per-character body of Go's `strings.Replace(s, "-", "_", -1)`. -/
def dashToUnderscoreChar (ch : Char) : Char := if ch = '-' then '_' else ch

/-- Embedding of `strings.Replace(s, "-", "_", -1)` (single-character
pattern, so replacement is a character map). -/
def dashToUnderscore (s : String) : String := ⟨s.data.map dashToUnderscoreChar⟩

/-- Embedding of Go's `strings.HasPrefix` on the character lists. -/
def charsPfx : List Char → List Char → Bool
  | [], _ => true
  | _ :: _, [] => false
  | a :: as, b :: bs => (a.toNat == b.toNat) && charsPfx as bs

/-- Character-level body of Go's `%#v` escaping of a string (`strconv.Quote`);
the common escapes are modelled, other characters print verbatim. -/
def goQuoteChar (ch : Char) : String :=
  if ch = '"' then "\\\"" else if ch = '\\' then "\\\\"
  else if ch = '\n' then "\\n" else if ch = '\t' then "\\t"
  else String.singleton ch

/-- Embedding of `fmt.Sprintf("%#v", s)` for a string value. -/
def goQuote (s : String) : String :=
  "\"" ++ String.join (s.data.map goQuoteChar) ++ "\""

/-! ### Status Oracle (`PodStatus`, `Pod.Status`) -/

/-- The `PodStatus` enumeration from `pod.go`. -/
inductive PodStatus where
  | invalid
  | running
  | dying
  | stopped
deriving DecidableEq, Repr

/-- Modelled from the spec: the `JailStatus` record lives in a file of this
repository outside `src/` ("numeric job id (0 = not running) and a dying
flag", spec section 3). -/
structure JailStatus where
  Jid : Int
  Dying : Bool
deriving DecidableEq, Repr

/-- Modelled from the spec: `NoJailStatus` (defined outside `src/`) is the
zero `JailStatus` — no job id, not dying. -/
def NoJailStatus : JailStatus := ⟨0, false⟩

/-- Embedding of `Pod.Status` from `pod.go`: the pure mapping applied to a
successfully queried jail status (a failed query panics in the source and is
outside this function's domain). -/
def statusFromJail (s : JailStatus) : PodStatus :=
  if s = NoJailStatus then .stopped
  else if s.Dying then .dying
  else .running

/-! ### Data model (appc schema types used by `pod.go`, embedded structurally) -/

/-- String literals used by `pod.go`, named so they can be passed by name. -/
def sLinux : String := "linux"

def sEmpty : String := "empty"

def sRo : String := "ro"

def sRw : String := "rw"

def slash : String := "/"

def nl : String := "\n"

def sPods : String := "pods"

def sRootfs : String := "rootfs"

def sVolumes : String := "volumes"

def sFstabFile : String := "fstab"

def sJailConfFile : String := "jail.conf"

def sResolvRel : String := "rootfs/etc/resolv.conf"

def sHostname : String := "hostname"

def sIpAddress : String := "ip-address"

def sIp4Addr : String := "ip4.addr"

def sHostHostname : String := "host.hostname"

def sHostHostuuid : String := "host.hostuuid"

def sIface : String := "interface"

def sPathKey : String := "path"

def sPersist : String := "persist"

def sTrueVal : String := "true"

def sDevfsRuleset : String := "devfs_ruleset"

def sFour : String := "4"

def sExecClean : String := "exec.clean"

def sMountDevfs : String := "mount.devfs"

def confPfx : String := "jetpack/jail.conf/"

def sFstabAnnoKey : String := "jetpack/jail.conf/mount.fstab"

/-- Embedding of `types.Annotation` (a name/value pair). -/
structure Anno where
  Name : String
  Value : String
deriving DecidableEq, Repr

/-- Embedding of `schema.Annotations.Get`: value of the first annotation with
the given name. -/
def annoGet : List Anno → String → Option String
  | [], _ => none
  | a :: as, k => if a.Name = k then some a.Value else annoGet as k

/-- Embedding of `schema.Annotations.Set`: replace the value of an existing
annotation of that name, else append (annotation names are unique in appc
manifests, so replacing every match is equivalent). -/
def annoSet (as : List Anno) (k v : String) : List Anno :=
  if as.any (fun a => decide (a.Name = k)) then
    as.map (fun a => if a.Name = k then ⟨k, v⟩ else a)
  else as ++ [⟨k, v⟩]

/-- Embedding of `schema.Mount`: volume name → mount-point name binding. -/
structure Mount where
  Volume : String
  MountPoint : String
deriving DecidableEq, Repr

/-- Embedding of `types.MountPoint` on an image's app template. -/
structure MountPoint where
  Name : String
  Path : String
  ReadOnly : Bool
deriving DecidableEq, Repr

/-- Embedding of `types.Volume`. -/
structure Volume where
  Name : String
  Kind : String
  Source : String
  ReadOnly : Option Bool
deriving DecidableEq, Repr

/-- Embedding of the part of `types.App` that `prepJail` reads (the launch
fields used only by `Stage2` are not needed by any claim). -/
structure ImgApp where
  MountPoints : List MountPoint
deriving DecidableEq, Repr

/-- Embedding of the part of an image manifest read by `prepJail`:
its name, the result of `GetLabel("os")`, and the optional app template. -/
structure ImageManifest where
  Name : String
  osLabel : Option String
  App : Option ImgApp
deriving DecidableEq, Repr

/-- Embedding of the image object returned by `Host.GetImageByHash`. -/
structure Image where
  Manifest : ImageManifest
deriving DecidableEq, Repr

/-- Embedding of `schema.RuntimeApp` (name, image hash, mount bindings). -/
structure RuntimeApp where
  Name : String
  ImageID : String
  Mounts : List Mount
deriving DecidableEq, Repr

/-- Embedding of `schema.PodManifest` as read by `pod.go`: apps, volumes,
isolators (opaque payloads — the source only ever tests their count), and
annotations. -/
structure PodManifest where
  Apps : List RuntimeApp
  Volumes : List Volume
  Isolators : List String
  Annos : List Anno
deriving DecidableEq, Repr

/-- Modelled from the spec: the `Host` record lives outside `src/`; the pod
code reads its path root and the `jail.interface`, `jail.namePrefix` and
`debug` properties (spec sections 3 and 6; `MustGetString` is fatal on an
absent property, so the two string properties are modelled as present). -/
structure Host where
  root : String
  iface : String
  namePfx : String
  debug : Bool
deriving DecidableEq, Repr

/-- Modelled from the spec: `Host.Path` resolves a path under the host's
root directory (spec section 6 filesystem layout). -/
def hostPath (h : Host) (elems : List String) : String :=
  String.intercalate slash (h.root :: elems)

/-- Embedding of the `Pod` struct from `pod.go`. -/
structure Pod where
  UUID : String
  Host : Host
  Manifest : PodManifest
  sealed : Bool
deriving DecidableEq, Repr

/-- Embedding of `Pod.Path`. -/
def Pod.Path (c : Pod) (elems : List String) : String :=
  hostPath c.Host (sPods :: c.UUID :: elems)

/-- Embedding of `Pod.jailName`. -/
def jailName (c : Pod) : String := c.Host.namePfx ++ c.UUID

/-! ### Jail Configuration Builder (`Pod.jailConf`) -/

/-- Assignment into the Go `parameters` map: replace an existing key's value
or add the key. -/
def mapSet (ps : List (String × String)) (k v : String) : List (String × String) :=
  if ps.any (fun kv => decide (kv.1 = k)) then
    ps.map (fun kv => if kv.1 = k then (k, v) else kv)
  else ps ++ [(k, v)]

/-- Lookup in the parameter table. -/
def lookupKV : List (String × String) → String → Option String
  | [], _ => none
  | kv :: ps, k => if kv.1 = k then some kv.2 else lookupKV ps k

/-- The fixed parameters of `jailConf` (the Go composite literal). -/
def baseParams (c : Pod) : List (String × String) :=
  [(sDevfsRuleset, sFour),
   (sExecClean, sTrueVal),
   (sHostHostuuid, c.UUID),
   (sIface, c.Host.iface),
   (sMountDevfs, sTrueVal),
   (sPathKey, c.Path [sRootfs]),
   (sPersist, sTrueVal)]

/-- The loop over annotations with the reserved `jetpack/jail.conf/` name
prefix: each one injects/overrides a parameter, with hyphens in the name
suffix mapped to underscores. -/
def applyConfAnnos (as : List Anno) (ps : List (String × String)) : List (String × String) :=
  as.foldl
    (fun ps a =>
      if charsPfx confPfx.data a.Name.data then
        mapSet ps (dashToUnderscore ⟨a.Name.data.drop confPfx.data.length⟩) a.Value
      else ps)
    ps

/-- The `host.hostname` parameter: the `hostname` annotation if present,
else the pod's UUID. -/
def hostnameParam (c : Pod) : String :=
  match annoGet c.Manifest.Annos sHostname with
  | some h => h
  | none => c.UUID

/-- The parameter table built by `Pod.jailConf`, assignments in source
order (fixed entries, `host.hostname`, `ip4.addr`, then the reserved-prefix
annotations); `none` embeds the panic on a missing `ip-address` annotation
(a fatal precondition, not an error). -/
def jailConfParams (c : Pod) : Option (List (String × String)) :=
  match annoGet c.Manifest.Annos sIpAddress with
  | none => none
  | some ip =>
    some (applyConfAnnos c.Manifest.Annos
      (mapSet (mapSet (baseParams c) sHostHostname (hostnameParam c)) sIp4Addr ip))

/-- One rendered `  key="value";` line of the jail configuration. -/
def renderLine (kv : String × String) : String :=
  "  " ++ kv.1 ++ "=" ++ goQuote kv.2 ++ ";"

/-- The final text assembly of `Pod.jailConf`: quoted jail name, braces, and
the rendered lines sorted lexicographically.  The parameter-table iteration
order is taken as an argument because Go map iteration order is arbitrary;
the sort erases it. -/
def renderJailConf (c : Pod) (ps : List (String × String)) : String :=
  goQuote (jailName c) ++ " \x7b\n" ++
    String.intercalate nl (sortStrings (ps.map renderLine)) ++ "\n\x7d\n"

/-- Embedding of `Pod.jailConf`; `none` embeds the fatal missing-IP panic. -/
def jailConf (c : Pod) : Option String :=
  (jailConfParams c).map (renderJailConf c)

/-! ### Mount Resolver (`Pod.prepJail`)

Side effects are embedded explicitly: a `PrepEnv` provides the outcome of
every read (image lookup, `/etc/resolv.conf`, `unix.Stat`) and whether each
mutating call succeeds, and the resolver threads an ordered log of the
mutations it has performed. -/

/-- The fields of `unix.Stat_t` read by `prepJail`. -/
structure StatT where
  Mode : Nat
  Uid : Nat
  Gid : Nat
deriving DecidableEq, Repr

/-- Outcome of `unix.Stat`: success, the tolerated `IsNotExist` case, or any
other error. -/
inductive StatResult where
  | ok (st : StatT)
  | notExist
  | err
deriving DecidableEq, Repr

/-- A filesystem mutation attempted by `prepJail`. -/
inductive FSOp where
  | writeFile (path : String) (content : String) (mode : Nat)
  | mkdirAll (path : String) (mode : Nat)
  | chmod (path : String) (mode : Nat)
  | chown (path : String) (uid gid : Nat)
deriving DecidableEq, Repr

/-- The failure cases of `prepJail` (`noIpFatal` embeds the panic raised by
`jailConf` while `prepJail` writes the configuration). -/
inductive PrepError where
  | onlyOneApp
  | imageNotFound (hash : String)
  | resolvReadErr
  | writeErr (path : String)
  | statErr (path : String)
  | mkdirErr (path : String)
  | chmodErr (path : String)
  | chownErr (path : String)
  | volumeNotFound (vol : String)
  | mountPointNotFound (mp : String)
  | unfulfilled (imageName : String) (missing : List String)
  | noIpFatal
deriving DecidableEq, Repr

/-- The external world as observed by one `prepJail` run. -/
structure PrepEnv where
  images : String → Option Image
  resolvConf : Option String
  stat : String → StatResult
  writeOk : String → Bool
  mkdirOk : String → Bool
  chmodOk : String → Bool
  chownOk : String → Bool

/-- The volume-search loop of `prepJail` (first matching name wins, with its
index). -/
def findVolumeFrom (i : Nat) : List Volume → String → Option (Nat × Volume)
  | [], _ => none
  | v :: vs, name => if v.Name = name then some (i, v) else findVolumeFrom (i + 1) vs name

/-- First volume (with index) of the manifest carrying the given name. -/
def findVolume (vols : List Volume) (name : String) : Option (Nat × Volume) :=
  findVolumeFrom 0 vols name

/-- The mount-point search loop of `prepJail`. -/
def findMountPoint (mps : List MountPoint) (name : String) : Option MountPoint :=
  mps.find? (fun mp => decide (mp.Name = name))

/-- The `sys` path element of the Linux compat mount. -/
def sSys : String := "sys"

/-- The `proc` path element of the Linux compat mount. -/
def sProc : String := "proc"

/-- The Linux-emulation `/sys` compat line (spacing as in the source). -/
def linsysLine (c : Pod) : String :=
  "linsys " ++ c.Path [sRootfs, sSys] ++ " linsysfs  rw 0 0\n"

/-- The Linux-emulation `/proc` compat line. -/
def linprocLine (c : Pod) : String :=
  "linproc " ++ c.Path [sRootfs, sProc] ++ " linprocfs rw 0 0\n"

/-- The two Linux-compat lines, produced exactly when the image labels its
os as `linux`. -/
def compatLinesFor (c : Pod) (img : Image) : List String :=
  if img.Manifest.osLabel = some sLinux then [linsysLine c, linprocLine c] else []

/-- Mount options: read-only if the volume is explicitly read-only or the
mount point is declared read-only. -/
def mountOpts (vol : Volume) (mp : MountPoint) : String :=
  if vol.ReadOnly = some true ∨ mp.ReadOnly = true then sRo else sRw

/-- One `<source> <target> nullfs <opts> 0 0` fstab line. -/
def fstabLine (hPath podPath opts : String) : String :=
  hPath ++ " " ++ podPath ++ " nullfs " ++ opts ++ " 0 0\n"

/-- One iteration of the mount-binding loop of `prepJail`: resolve the
volume and the mount point, allocate an empty volume's directory (copying
ownership and mode from a pre-existing target directory), and render the
fstab line.  Returns the line or the error, plus the mutations performed. -/
def resolveMount (env : PrepEnv) (c : Pod) (imgApp : ImgApp) (mnt : Mount) :
    Except PrepError String × List FSOp :=
  match findVolume c.Manifest.Volumes mnt.Volume with
  | none => (.error (.volumeNotFound mnt.Volume), [])
  | some (volNo, vol) =>
    match findMountPoint imgApp.MountPoints mnt.MountPoint with
    | none => (.error (.mountPointNotFound mnt.MountPoint), [])
    | some mp =>
      let podPath := c.Path [sRootfs, mp.Path]
      if vol.Kind = sEmpty then
        let hPath := c.Path [sVolumes, toString volNo]
        if env.mkdirOk hPath then
          match env.stat podPath with
          | .err => (.error (.statErr podPath), [.mkdirAll hPath 0o700])
          | .notExist => (.ok (fstabLine hPath podPath (mountOpts vol mp)), [.mkdirAll hPath 0o700])
          | .ok st =>
            if env.chmodOk hPath then
              if env.chownOk hPath then
                (.ok (fstabLine hPath podPath (mountOpts vol mp)),
                 [.mkdirAll hPath 0o700, .chmod hPath (Nat.land st.Mode 0o7777),
                  .chown hPath st.Uid st.Gid])
              else (.error (.chownErr hPath),
                    [.mkdirAll hPath 0o700, .chmod hPath (Nat.land st.Mode 0o7777)])
            else (.error (.chmodErr hPath), [.mkdirAll hPath 0o700])
        else (.error (.mkdirErr hPath), [])
      else (.ok (fstabLine vol.Source podPath (mountOpts vol mp)), [])

/-- The mount-binding loop, accumulating fstab lines, fulfilled mount-point
names, and the mutation log. -/
def processMounts (env : PrepEnv) (c : Pod) (imgApp : ImgApp) :
    List Mount → List String → List String → List FSOp →
    Except PrepError (List String × List String) × List FSOp
  | [], fstab, fulfilled, effs => (.ok (fstab, fulfilled), effs)
  | mnt :: rest, fstab, fulfilled, effs =>
    match resolveMount env c imgApp mnt with
    | (.error e, effs2) => (.error e, effs ++ effs2)
    | (.ok line, effs2) =>
      processMounts env c imgApp rest (fstab ++ [line]) (fulfilled ++ [mnt.MountPoint])
        (effs ++ effs2)

/-- Image-declared mount points not marked fulfilled, in declaration order. -/
def unfulfilledOf (imgApp : ImgApp) (fulfilled : List String) : List String :=
  (imgApp.MountPoints.filter (fun mp => !(fulfilled.contains mp.Name))).map MountPoint.Name

/-- The mount points a manifest's bindings leave unfulfilled. -/
def missingMountPoints (imgApp : ImgApp) (mounts : List Mount) : List String :=
  unfulfilledOf imgApp (mounts.map Mount.MountPoint)

/-- The fstab line `prepJail` renders for one resolvable binding (used to
state claims about the produced mount table). -/
def fstabLineFor (c : Pod) (imgApp : ImgApp) (mnt : Mount) : String :=
  match findVolume c.Manifest.Volumes mnt.Volume,
        findMountPoint imgApp.MountPoints mnt.MountPoint with
  | some (volNo, vol), some mp =>
    let podPath := c.Path [sRootfs, mp.Path]
    let hPath := if vol.Kind = sEmpty then c.Path [sVolumes, toString volNo] else vol.Source
    fstabLine hPath podPath (mountOpts vol mp)
  | _, _ => ""

/-- Tail of `prepJail`: write the jail configuration (the missing-IP panic
inside `jailConf` becomes `noIpFatal`). -/
def finishConf (env : PrepEnv) (c : Pod) (fstab : List String) (effs : List FSOp) :
    Except PrepError (Pod × List String) × List FSOp :=
  match jailConfParams c with
  | none => (.error .noIpFatal, effs)
  | some ps =>
    let jPath := c.Path [sJailConfFile]
    if env.writeOk jPath then
      (.ok (c, fstab), effs ++ [.writeFile jPath (renderJailConf c ps) 0o400])
    else (.error (.writeErr jPath), effs)

/-- Tail of `prepJail`: if any fstab lines were produced, write them to the
pod's fstab file and register its path in the manifest's annotations under
the reserved key; then write the jail configuration. -/
def finishJail (env : PrepEnv) (c : Pod) (fstab : List String) (effs : List FSOp) :
    Except PrepError (Pod × List String) × List FSOp :=
  if fstab.isEmpty then finishConf env c fstab effs
  else
    let fPath := c.Path [sFstabFile]
    if env.writeOk fPath then
      finishConf env
        {c with Manifest :=
          {c.Manifest with Annos := annoSet c.Manifest.Annos sFstabAnnoKey fPath}}
        fstab (effs ++ [.writeFile fPath (String.join fstab) 0o600])
    else (.error (.writeErr fPath), effs)

/-- Body of the per-app part of `prepJail` (the loop runs exactly once,
because the guard has already enforced a single app): image lookup, compat
lines, the resolv.conf copy, the binding loop, the unfulfilled check, and
the final writes. -/
def prepJailApp (env : PrepEnv) (c : Pod) (app : RuntimeApp) :
    Except PrepError (Pod × List String) × List FSOp :=
  match env.images app.ImageID with
  | none => (.error (.imageNotFound app.ImageID), [])
  | some img =>
    let fstab0 := compatLinesFor c img
    match env.resolvConf with
    | none => (.error .resolvReadErr, [])
    | some bb =>
      let rPath := c.Path [sResolvRel]
      if env.writeOk rPath then
        let effs0 := [FSOp.writeFile rPath bb 0o644]
        match img.Manifest.App with
        | none => finishJail env c fstab0 effs0
        | some imgApp =>
          match processMounts env c imgApp app.Mounts fstab0 [] effs0 with
          | (.error e, effs) => (.error e, effs)
          | (.ok (fstab, fulfilled), effs) =>
            let unful := unfulfilledOf imgApp fulfilled
            if unful.isEmpty then finishJail env c fstab effs
            else (.error (.unfulfilled img.Manifest.Name unful), effs)
      else (.error (.writeErr rPath), [])

/-- Embedding of `Pod.prepJail`: the `len(Apps) != 1` guard followed by the
loop over the (single) app. -/
def prepJail (env : PrepEnv) (c : Pod) : Except PrepError (Pod × List String) × List FSOp :=
  match c.Manifest.Apps with
  | [app] => prepJailApp env c app
  | _ => (.error .onlyOneApp, [])

/-! ### Lifecycle Controller (`Pod.Destroy`)

`Destroy` orchestrates external collaborators (`Kill`, the dataset manager,
`os.RemoveAll`); their outcomes are inputs and the invocations are logged in
order. -/

/-- The three external teardown actions `Destroy` can issue. -/
inductive DestroyAct where
  | kill
  | dsDestroy
  | rmDirTree
deriving DecidableEq, Repr

/-- Outcomes of `Destroy`'s collaborators: the queried job id, the result a
`Kill` call would return, the dataset lookup, and the results of dataset
destruction and directory-tree removal. -/
structure DestroyEnv where
  jid : Int
  killRes : Except String Unit
  dataset : Option String
  dsDestroyRes : Except String Unit
  rmRes : Except String Unit

/-- The dataset-then-directory tail of `Destroy`. -/
def destroyAfterKill (env : DestroyEnv) (acts : List DestroyAct) :
    Except String Unit × List DestroyAct :=
  match env.dataset with
  | some _ =>
    match env.dsDestroyRes with
    | .error e => (.error e, acts ++ [.dsDestroy])
    | .ok _ => (env.rmRes, acts ++ [.dsDestroy, .rmDirTree])
  | none => (env.rmRes, acts ++ [.rmDirTree])

/-- Embedding of `Pod.Destroy`: kill if a jail is attached (abort on
failure), destroy the dataset if one exists (abort on failure), then remove
the directory tree. -/
def destroy (env : DestroyEnv) : Except String Unit × List DestroyAct :=
  if env.jid = 0 then destroyAfterKill env []
  else
    match env.killRes with
    | .error e => (.error e, [.kill])
    | .ok _ => destroyAfterKill env [.kill]

/-! ### Manifest Store (`Pod.Save`, `Pod.Load`)

The JSON layer (`encoding/json` plus the appc schema marshalers, both
outside this repository) is embedded at the tree level: `Save` serializes
the manifest to a JSON value and `Load` decodes and validates it.  The pod
directory is embedded as the optional content of the manifest file. -/

/-- JSON trees, restricted to the shapes the manifest serialization uses. -/
inductive Jx where
  | str (s : String)
  | boolv (b : Bool)
  | nul
  | arr (xs : List Jx)
  | obj (fs : List (String × Jx))

/-- JSON field names of the manifest serialization. -/
def kApps : String := "apps"

def kVolumes : String := "volumes"

def kIsolators : String := "isolators"

def kAnnosKey : String := "annotations"

def kName : String := "name"

def kValue : String := "value"

def kImage : String := "image"

def kId : String := "id"

def kMounts : String := "mounts"

def kVolume : String := "volume"

def kMountPoint : String := "mountPoint"

def kKind : String := "kind"

def kSource : String := "source"

def kReadOnly : String := "readOnly"

/-- Serialization of one mount binding. -/
def marshalMount (m : Mount) : Jx :=
  .obj [(kVolume, .str m.Volume), (kMountPoint, .str m.MountPoint)]

/-- Serialization of one runtime app. -/
def marshalApp (a : RuntimeApp) : Jx :=
  .obj [(kName, .str a.Name),
        (kImage, .obj [(kId, .str a.ImageID)]),
        (kMounts, .arr (a.Mounts.map marshalMount))]

/-- Serialization of one volume (`readOnly` is nullable). -/
def marshalVolume (v : Volume) : Jx :=
  .obj [(kName, .str v.Name), (kKind, .str v.Kind), (kSource, .str v.Source),
        (kReadOnly, match v.ReadOnly with
                    | none => .nul
                    | some b => .boolv b)]

/-- Serialization of one annotation. -/
def marshalAnno (a : Anno) : Jx :=
  .obj [(kName, .str a.Name), (kValue, .str a.Value)]

/-- Embedding of `json.Marshal(c.Manifest)` (isolators are opaque payloads
carried through unchanged). -/
def marshalManifest (m : PodManifest) : Jx :=
  .obj [(kApps, .arr (m.Apps.map marshalApp)),
        (kVolumes, .arr (m.Volumes.map marshalVolume)),
        (kIsolators, .arr (m.Isolators.map Jx.str)),
        (kAnnosKey, .arr (m.Annos.map marshalAnno))]

/-- Field lookup in a JSON object. -/
def jLookup : List (String × Jx) → String → Option Jx
  | [], _ => none
  | f :: fs, k => if f.1 = k then some f.2 else jLookup fs k

/-- Decode every element of a JSON array, failing if any element fails. -/
def unmarshalList (f : Jx → Option α) : List Jx → Option (List α)
  | [] => some []
  | j :: js =>
    match f j, unmarshalList f js with
    | some a, some as => some (a :: as)
    | _, _ => none

/-- Decode one mount binding. -/
def unmarshalMount (j : Jx) : Option Mount :=
  match j with
  | .obj fs =>
    match jLookup fs kVolume, jLookup fs kMountPoint with
    | some (.str v), some (.str mp) => some ⟨v, mp⟩
    | _, _ => none
  | _ => none

/-- Decode one runtime app. -/
def unmarshalApp (j : Jx) : Option RuntimeApp :=
  match j with
  | .obj fs =>
    match jLookup fs kName, jLookup fs kImage, jLookup fs kMounts with
    | some (.str n), some (.obj ifs), some (.arr ms) =>
      match jLookup ifs kId, unmarshalList unmarshalMount ms with
      | some (.str imgId), some mounts => some ⟨n, imgId, mounts⟩
      | _, _ => none
    | _, _, _ => none
  | _ => none

/-- Decode one volume. -/
def unmarshalVolume (j : Jx) : Option Volume :=
  match j with
  | .obj fs =>
    match jLookup fs kName, jLookup fs kKind, jLookup fs kSource, jLookup fs kReadOnly with
    | some (.str n), some (.str k), some (.str s), some .nul => some ⟨n, k, s, none⟩
    | some (.str n), some (.str k), some (.str s), some (.boolv b) => some ⟨n, k, s, some b⟩
    | _, _, _, _ => none
  | _ => none

/-- Decode one opaque isolator payload. -/
def unmarshalStr (j : Jx) : Option String :=
  match j with
  | .str s => some s
  | _ => none

/-- Decode one annotation. -/
def unmarshalAnno (j : Jx) : Option Anno :=
  match j with
  | .obj fs =>
    match jLookup fs kName, jLookup fs kValue with
    | some (.str n), some (.str v) => some ⟨n, v⟩
    | _, _ => none
  | _ => none

/-- Embedding of `json.Unmarshal` into a fresh `schema.PodManifest`. -/
def unmarshalManifest (j : Jx) : Option PodManifest :=
  match j with
  | .obj fs =>
    match jLookup fs kApps, jLookup fs kVolumes, jLookup fs kIsolators,
          jLookup fs kAnnosKey with
    | some (.arr as), some (.arr vs), some (.arr isos), some (.arr ans) =>
      match unmarshalList unmarshalApp as, unmarshalList unmarshalVolume vs,
            unmarshalList unmarshalStr isos, unmarshalList unmarshalAnno ans with
      | some apps, some vols, some iso, some annos => some ⟨apps, vols, iso, annos⟩
      | _, _, _, _ => none
    | _, _, _, _ => none
  | _ => none

/-- The pod's directory as far as the Manifest Store reads it: the optional
content of the `manifest` file. -/
structure FileStore where
  manifestFile : Option Jx

/-- Embedding of `Pod.Save`: serialize the manifest, write it to the pod's
directory (the write is modelled as succeeding; serialization of these
types cannot fail), and seal the pod. -/
def save (c : Pod) (_st : FileStore) : Pod × FileStore :=
  ({c with sealed := true}, ⟨some (marshalManifest c.Manifest)⟩)

/-- The recoverable failures of `Pod.Load`. -/
inductive LoadErr where
  | notFound
  | parseErr
  | noApps
  | multiApp
  | hasIsolators
deriving DecidableEq, Repr

/-- Result of `Pod.Load`: the panic on a sealed pod, a failure with the
pod's state at that point, or success. -/
inductive LoadResult where
  | fatalSealed
  | failed (e : LoadErr) (post : Pod)
  | loaded (post : Pod)
deriving Repr

/-- Embedding of `Pod.Load`: panic if already sealed; `NotFound` if the
manifest file is absent; parse the manifest into the pod; reject zero apps,
more than one app, and any isolators; only then seal. -/
def load (c : Pod) (st : FileStore) : LoadResult :=
  if c.sealed then .fatalSealed
  else
    match st.manifestFile with
    | none => .failed .notFound c
    | some j =>
      match unmarshalManifest j with
      | none => .failed .parseErr c
      | some m =>
        let c2 := {c with Manifest := m}
        if m.Apps.length = 0 then .failed .noApps c2
        else if 1 < m.Apps.length then .failed .multiApp c2
        else if m.Isolators.length ≠ 0 then .failed .hasIsolators c2
        else .loaded {c2 with sealed := true}

/-! ### Round-trip lemmas for the manifest serialization -/

theorem unmarshalList_map {α : Type} (f : Jx → Option α) (g : α → Jx)
    (hfg : ∀ x, f (g x) = some x) : ∀ l : List α, unmarshalList f (l.map g) = some l
  | [] => rfl
  | x :: xs => by
    simp only [List.map_cons, unmarshalList, hfg x, unmarshalList_map f g hfg xs]

theorem unmarshalMount_marshal (m : Mount) : unmarshalMount (marshalMount m) = some m := rfl

theorem unmarshalVolume_marshal (v : Volume) : unmarshalVolume (marshalVolume v) = some v := by
  obtain ⟨n, k, s, ro⟩ := v
  cases ro <;> rfl

theorem unmarshalAnno_marshal (a : Anno) : unmarshalAnno (marshalAnno a) = some a := rfl

theorem unmarshalStr_str (s : String) : unmarshalStr (Jx.str s) = some s := rfl

theorem unmarshalApp_marshal (a : RuntimeApp) : unmarshalApp (marshalApp a) = some a := by
  have hm := unmarshalList_map unmarshalMount marshalMount unmarshalMount_marshal a.Mounts
  simp [unmarshalApp, marshalApp, jLookup, kName, kImage, kMounts, kId, hm]

theorem unmarshalManifest_marshal (m : PodManifest) :
    unmarshalManifest (marshalManifest m) = some m := by
  have h1 := unmarshalList_map unmarshalApp marshalApp unmarshalApp_marshal m.Apps
  have h2 := unmarshalList_map unmarshalVolume marshalVolume unmarshalVolume_marshal m.Volumes
  have h3 := unmarshalList_map unmarshalStr Jx.str unmarshalStr_str m.Isolators
  have h4 := unmarshalList_map unmarshalAnno marshalAnno unmarshalAnno_marshal m.Annos
  simp [unmarshalManifest, marshalManifest, jLookup, kApps, kVolumes, kIsolators, kAnnosKey,
    h1, h2, h3, h4]

/-! ### Concrete pods and environments used by witnesses -/

def sUuidA : String := "0a1b2c3d"

def sRootA : String := "/jetpack"

def sIfaceA : String := "lo1"

def sPfxA : String := "jp-"

def hostA : Host := ⟨sRootA, sIfaceA, sPfxA, false⟩

def emptyManifest : PodManifest := ⟨[], [], [], []⟩

/-- A fresh, unsealed pod with an empty manifest. -/
def podA : Pod := ⟨sUuidA, hostA, emptyManifest, false⟩

def sIp : String := "10.0.0.5"

def annoIp : Anno := ⟨sIpAddress, sIp⟩

def sApp1 : String := "app1"

def sImgHash : String := "sha512-0011"

def appA : RuntimeApp := ⟨sApp1, sImgHash, []⟩

def manifestA : PodManifest := ⟨[appA], [], [], [annoIp]⟩

/-- An unsealed pod holding a valid single-app manifest. -/
def podB : Pod := {podA with Manifest := manifestA}

/-! ### Claims C8, C9, C10 — Manifest Store -/

/-- C8: for every pod manifest that `Load` accepts (exactly one app, no
isolators), `Save` followed by `Load` on a fresh (unsealed, empty) pod
yields that pod with the original manifest, sealed. -/
theorem c8_save_load_roundtrip (c cf : Pod) (st : FileStore)
    (hseal : cf.sealed = false)
    (h1 : c.Manifest.Apps.length = 1)
    (h2 : c.Manifest.Isolators = []) :
    load cf (save c st).2 = .loaded {cf with Manifest := c.Manifest, sealed := true} := by
  simp [save, load, hseal, unmarshalManifest_marshal, h1, h2]

/-- C8 witness: saving a concrete one-app manifest and loading it into a
fresh pod returns exactly that manifest. -/
theorem c8_save_load_roundtrip_witness :
    load podA (save podB ⟨none⟩).2 = .loaded {podA with Manifest := manifestA, sealed := true} :=
  c8_save_load_roundtrip podB podA ⟨none⟩ rfl rfl rfl

/-- C9: `Save` performs no structural validation — it writes and seals any
manifest — while `Load` (into a fresh pod) rejects exactly the manifests
with zero apps, more than one app, or isolators, with a validation error. -/
theorem c9_save_no_validation (c cf : Pod) (st : FileStore) (hseal : cf.sealed = false) :
    (save c st).1.sealed = true ∧
    (save c st).2.manifestFile = some (marshalManifest c.Manifest) ∧
    ((c.Manifest.Apps.length ≠ 1 ∨ c.Manifest.Isolators ≠ []) ↔
      ∃ e post, load cf (save c st).2 = .failed e post ∧
        (e = .noApps ∨ e = .multiApp ∨ e = .hasIsolators)) := by
  refine ⟨rfl, rfl, ?_⟩
  simp only [save, load, hseal, Bool.false_eq_true, if_false, unmarshalManifest_marshal]
  by_cases h0 : c.Manifest.Apps.length = 0
  · simp only [h0, if_pos rfl]
    constructor
    · intro _
      exact ⟨.noApps, _, rfl, Or.inl rfl⟩
    · intro _
      exact Or.inl (by omega)
  · by_cases hm : 1 < c.Manifest.Apps.length
    · simp only [h0, if_neg h0, hm, if_pos hm]
      constructor
      · intro _
        exact ⟨.multiApp, _, rfl, Or.inr (Or.inl rfl)⟩
      · intro _
        exact Or.inl (by omega)
    · by_cases hi : c.Manifest.Isolators.length ≠ 0
      · simp only [if_neg h0, if_neg hm, hi, if_pos hi]
        constructor
        · intro _
          exact ⟨.hasIsolators, _, rfl, Or.inr (Or.inr rfl)⟩
        · intro _
          refine Or.inr ?_
          intro he
          exact hi (by simp [he])
      · simp only [if_neg h0, if_neg hm, if_neg hi]
        constructor
        · intro hbad
          rcases hbad with hb | hb
          · exact absurd (by omega : c.Manifest.Apps.length = 1) hb
          · exact absurd (List.length_eq_zero.mp (by omega)) hb
        · rintro ⟨e, post, hl, _⟩
          exact absurd hl (by simp)

/-- C9 witness: a zero-app manifest is saved and sealed, yet rejected by
`Load` with a validation error. -/
theorem c9_save_no_validation_witness :
    (save podA ⟨none⟩).1.sealed = true ∧
    (save podA ⟨none⟩).2.manifestFile = some (marshalManifest podA.Manifest) ∧
    ((podA.Manifest.Apps.length ≠ 1 ∨ podA.Manifest.Isolators ≠ []) ↔
      ∃ e post, load podA (save podA ⟨none⟩).2 = .failed e post ∧
        (e = .noApps ∨ e = .multiApp ∨ e = .hasIsolators)) :=
  c9_save_no_validation podA podA ⟨none⟩ rfl

/-- C10: whenever `Load` on an unsealed pod returns an error — missing
manifest, unparsable manifest, or a failed validation check — the pod's
sealed flag is still false afterward; the flag is set exactly on success. -/
theorem c10_load_error_not_sealed (c : Pod) (st : FileStore) (h : c.sealed = false) :
    (∀ e post, load c st = .failed e post → post.sealed = false) ∧
    (∀ post, load c st = .loaded post → post.sealed = true) := by
  constructor
  · intro e post hl
    unfold load at hl
    rw [h] at hl
    simp only [Bool.false_eq_true, if_false] at hl
    repeat' split at hl
    all_goals first
      | (injection hl with _ hp
         rw [← hp]
         try simp [h])
      | simp at hl
  · intro post hl
    unfold load at hl
    rw [h] at hl
    simp only [Bool.false_eq_true, if_false] at hl
    repeat' split at hl
    all_goals first
      | (injection hl with hp
         rw [← hp])
      | simp at hl

/-- C10 witness: loading a fresh pod from an empty directory fails with
`NotFound` and leaves the pod unsealed. -/
theorem c10_load_error_not_sealed_witness :
    podA.sealed = false ∧ load podA ⟨none⟩ = .failed .notFound podA :=
  ⟨(c10_load_error_not_sealed podA ⟨none⟩ rfl).1 .notFound podA rfl, rfl⟩

/-! ### Claim C1 — Status Oracle -/

/-- C1 counterexample: the claim says a job id of 0 always yields Stopped,
but `Status` compares the whole status against `NoJailStatus`, so a status
with job id 0 and the dying flag set yields Dying, not Stopped. -/
theorem c1_jid_zero_dying_counterexample :
    (JailStatus.mk 0 true).Jid = 0 ∧
    statusFromJail ⟨0, true⟩ ≠ PodStatus.stopped ∧
    statusFromJail ⟨0, true⟩ = PodStatus.dying := by
  refine ⟨rfl, ?_, rfl⟩
  decide

/-- C1 (amended): `Status` maps the queried jail status exhaustively as
follows — job id 0 with the dying flag clear yields Stopped; the dying flag
set yields Dying (regardless of job id); job id nonzero with the dying flag
clear yields Running. -/
theorem c1_status_mapping_amended (s : JailStatus) :
    (s.Jid = 0 ∧ s.Dying = false → statusFromJail s = .stopped) ∧
    (s.Dying = true → statusFromJail s = .dying) ∧
    (s.Jid ≠ 0 ∧ s.Dying = false → statusFromJail s = .running) := by
  obtain ⟨jid, dy⟩ := s
  refine ⟨?_, ?_, ?_⟩
  · rintro ⟨h1, h2⟩
    subst h1
    subst h2
    rfl
  · intro h
    subst h
    simp [statusFromJail, NoJailStatus]
  · rintro ⟨h1, h2⟩
    subst h2
    simp [statusFromJail, NoJailStatus, h1]

/-- C1 witness: the three amended cases at concrete statuses. -/
theorem c1_status_mapping_amended_witness :
    statusFromJail ⟨0, false⟩ = PodStatus.stopped ∧
    statusFromJail ⟨7, true⟩ = PodStatus.dying ∧
    statusFromJail ⟨7, false⟩ = PodStatus.running :=
  ⟨(c1_status_mapping_amended ⟨0, false⟩).1 ⟨rfl, rfl⟩,
   (c1_status_mapping_amended ⟨7, true⟩).2.1 rfl,
   (c1_status_mapping_amended ⟨7, false⟩).2.2 ⟨by decide, rfl⟩⟩

/-! ### Claim C6 — Destroy ordering -/

/-- C6: on a pod with an attached jail (nonzero job id), `Destroy` runs
Kill before dataset destruction before directory removal; a Kill failure
aborts with nothing else touched; a dataset-destroy failure aborts before
the directory is removed. -/
theorem c6_destroy_ordering (env : DestroyEnv) (hjid : env.jid ≠ 0) :
    (∀ e, env.killRes = .error e → destroy env = (.error e, [.kill])) ∧
    (∀ d e, env.killRes = .ok () → env.dataset = some d → env.dsDestroyRes = .error e →
      destroy env = (.error e, [.kill, .dsDestroy])) ∧
    (∀ d, env.killRes = .ok () → env.dataset = some d → env.dsDestroyRes = .ok () →
      destroy env = (env.rmRes, [.kill, .dsDestroy, .rmDirTree])) := by
  refine ⟨?_, ?_, ?_⟩
  · intro e hk
    simp [destroy, hjid, hk]
  · intro d e hk hd hds
    simp [destroy, hjid, hk, destroyAfterKill, hd, hds]
  · intro d hk hd hds
    simp [destroy, hjid, hk, destroyAfterKill, hd, hds]

def sBoom : String := "kill failed"

def sDs : String := "zroot/jetpack/pods/p"

/-- C6 witness: with an attached jail and a failing Kill, `Destroy` returns
the Kill failure having only invoked Kill. -/
theorem c6_destroy_ordering_witness :
    destroy ⟨1, .error sBoom, some sDs, .ok (), .ok ()⟩ = (.error sBoom, [.kill]) :=
  (c6_destroy_ordering ⟨1, .error sBoom, some sDs, .ok (), .ok ()⟩ (by decide)).1 sBoom rfl

/-! ### Parameter-table lemmas -/

theorem lookupKV_none_of_not_any (ps : List (String × String)) (k : String)
    (h : ps.any (fun kv => decide (kv.1 = k)) = false) : lookupKV ps k = none := by
  induction ps with
  | nil => rfl
  | cons hd tl ih =>
    simp only [List.any_cons, Bool.or_eq_false_iff, decide_eq_false_iff_not] at h
    simp [lookupKV, h.1, ih h.2]

theorem lookupKV_append_right (ps : List (String × String)) (k v : String)
    (hnone : lookupKV ps k = none) : lookupKV (ps ++ [(k, v)]) k = some v := by
  induction ps with
  | nil => simp [lookupKV]
  | cons hd tl ih =>
    by_cases hh : hd.1 = k
    · simp [lookupKV, hh] at hnone
    · simp only [lookupKV, if_neg hh] at hnone
      simp only [List.cons_append, lookupKV, if_neg hh]
      exact ih hnone

theorem lookupKV_replaceAll (ps : List (String × String)) (k v : String) :
    lookupKV (ps.map (fun kv => if kv.1 = k then (k, v) else kv)) k =
      (lookupKV ps k).map (fun _ => v) := by
  induction ps with
  | nil => rfl
  | cons hd tl ih =>
    by_cases hh : hd.1 = k
    · simp [lookupKV, hh]
    · simp [lookupKV, hh, ih]

theorem lookupKV_isSome_of_any (ps : List (String × String)) (k : String)
    (h : ps.any (fun kv => decide (kv.1 = k)) = true) : (lookupKV ps k).isSome := by
  induction ps with
  | nil => simp at h
  | cons hd tl ih =>
    by_cases hh : hd.1 = k
    · simp [lookupKV, hh]
    · simp only [List.any_cons, Bool.or_eq_true, decide_eq_true_eq] at h
      rcases h with h | h
      · exact absurd h hh
      · simp only [lookupKV, if_neg hh]
        exact ih h

theorem lookupKV_mapSet_self (ps : List (String × String)) (k v : String) :
    lookupKV (mapSet ps k v) k = some v := by
  unfold mapSet
  split
  case isTrue h =>
    rw [lookupKV_replaceAll]
    obtain ⟨w, hw⟩ := Option.isSome_iff_exists.mp (lookupKV_isSome_of_any ps k h)
    rw [hw]
    rfl
  case isFalse h =>
    simp only [Bool.not_eq_true] at h
    exact lookupKV_append_right ps k v (lookupKV_none_of_not_any ps k h)

theorem lookupKV_replaceAll_ne (ps : List (String × String)) (k v k' : String)
    (hne : k' ≠ k) :
    lookupKV (ps.map (fun kv => if kv.1 = k then (k, v) else kv)) k' = lookupKV ps k' := by
  induction ps with
  | nil => rfl
  | cons hd tl ih =>
    by_cases hh : hd.1 = k
    · simp only [List.map_cons, if_pos hh, lookupKV]
      rw [if_neg (Ne.symm hne), if_neg (fun e : hd.1 = k' => hne (e.symm.trans hh))]
      exact ih
    · by_cases he : hd.1 = k'
      · simp [lookupKV, hh, he, hne]
      · simp only [List.map_cons, if_neg hh, lookupKV, if_neg he]
        exact ih

theorem lookupKV_append_ne (ps : List (String × String)) (k v k' : String) (hne : k' ≠ k) :
    lookupKV (ps ++ [(k, v)]) k' = lookupKV ps k' := by
  induction ps with
  | nil => simp [lookupKV, Ne.symm hne]
  | cons hd tl ih =>
    simp only [List.cons_append, lookupKV]
    by_cases he : hd.1 = k'
    · simp [he]
    · rw [if_neg he, if_neg he]
      exact ih

theorem lookupKV_mapSet_ne (ps : List (String × String)) (k v k' : String) (hne : k' ≠ k) :
    lookupKV (mapSet ps k v) k' = lookupKV ps k' := by
  unfold mapSet
  split
  · exact lookupKV_replaceAll_ne ps k v k' hne
  · exact lookupKV_append_ne ps k v k' hne

theorem annoGet_replaceAll_ne (as : List Anno) (k v k' : String) (hne : k' ≠ k) :
    annoGet (as.map (fun a => if a.Name = k then ⟨k, v⟩ else a)) k' = annoGet as k' := by
  induction as with
  | nil => rfl
  | cons hd tl ih =>
    by_cases hh : hd.Name = k
    · simp only [List.map_cons, if_pos hh, annoGet]
      rw [if_neg (Ne.symm hne), if_neg (fun e : hd.Name = k' => hne (e.symm.trans hh))]
      exact ih
    · by_cases he : hd.Name = k'
      · simp [annoGet, hh, he, hne]
      · simp only [List.map_cons, if_neg hh, annoGet, if_neg he]
        exact ih

theorem annoGet_append_ne (as : List Anno) (k v k' : String) (hne : k' ≠ k) :
    annoGet (as ++ [⟨k, v⟩]) k' = annoGet as k' := by
  induction as with
  | nil => simp [annoGet, Ne.symm hne]
  | cons hd tl ih =>
    simp only [List.cons_append, annoGet]
    by_cases he : hd.Name = k'
    · simp [he]
    · rw [if_neg he, if_neg he]
      exact ih

theorem annoGet_annoSet_ne (as : List Anno) (k v k' : String) (hne : k' ≠ k) :
    annoGet (annoSet as k v) k' = annoGet as k' := by
  unfold annoSet
  split
  · exact annoGet_replaceAll_ne as k v k' hne
  · exact annoGet_append_ne as k v k' hne

theorem lookupKV_applyConfAnnos (as : List Anno) (ps : List (String × String)) (k : String)
    (h : ∀ a ∈ as, charsPfx confPfx.data a.Name.data = true →
      dashToUnderscore ⟨a.Name.data.drop confPfx.data.length⟩ ≠ k) :
    lookupKV (applyConfAnnos as ps) k = lookupKV ps k := by
  induction as generalizing ps with
  | nil => rfl
  | cons a as ih =>
    have hstep :
        lookupKV
          (if charsPfx confPfx.data a.Name.data then
            mapSet ps (dashToUnderscore ⟨a.Name.data.drop confPfx.data.length⟩) a.Value
          else ps) k = lookupKV ps k := by
      split
      case isTrue hp =>
        exact lookupKV_mapSet_ne _ _ _ _
          (Ne.symm (h a (List.mem_cons_self a as) hp))
      case isFalse hp => rfl
    calc lookupKV (applyConfAnnos (a :: as) ps) k
        = lookupKV (applyConfAnnos as
            (if charsPfx confPfx.data a.Name.data then
              mapSet ps (dashToUnderscore ⟨a.Name.data.drop confPfx.data.length⟩) a.Value
            else ps)) k := rfl
      _ = lookupKV ps k := by
          rw [ih _ (fun b hb => h b (List.mem_cons_of_mem a hb)), hstep]

/-! ### Recovering an annotation name from its derived parameter key -/

theorem charsPfx_eq_append : ∀ p s, charsPfx p s = true → s = p ++ s.drop p.length
  | [], s => by
    intro _
    simp
  | a :: p, [] => by
    intro h
    simp [charsPfx] at h
  | a :: p, b :: s => by
    intro h
    simp only [charsPfx, Bool.and_eq_true, beq_iff_eq] at h
    obtain ⟨h1, h2⟩ := h
    have hab : a = b := char_toNat_inj h1
    simp only [List.length_cons, List.drop_succ_cons, List.cons_append, hab]
    exact congrArg (b :: ·) (charsPfx_eq_append p s h2)

theorem map_dash_eq_self (l : List Char)
    (h : ∀ ch ∈ l.map dashToUnderscoreChar, ch ≠ '_') :
    l.map dashToUnderscoreChar = l := by
  induction l with
  | nil => rfl
  | cons a l ih =>
    simp only [List.map_cons]
    have ha : dashToUnderscoreChar a ≠ '_' := h _ (by simp)
    have haa : dashToUnderscoreChar a = a := by
      by_cases hc : a = '-'
      · subst hc
        exact absurd rfl ha
      · simp [dashToUnderscoreChar, hc]
    rw [haa]
    exact congrArg (a :: ·) (ih (fun ch hch => h ch (by simp [hch])))

/-- The annotation name whose reserved-prefix suffix renders to the
`ip4.addr` parameter key. -/
def sIp4AnnoName : String := "jetpack/jail.conf/ip4.addr"

theorem derived_ip4_name (nm : String)
    (hp : charsPfx confPfx.data nm.data = true)
    (hd : dashToUnderscore ⟨nm.data.drop confPfx.data.length⟩ = sIp4Addr) :
    nm = sIp4AnnoName := by
  have hsd : (nm.data.drop confPfx.data.length).map dashToUnderscoreChar = sIp4Addr.data :=
    congrArg String.data hd
  have hnous : ∀ ch ∈ sIp4Addr.data, ch ≠ '_' := by decide
  have hself : (nm.data.drop confPfx.data.length).map dashToUnderscoreChar =
      nm.data.drop confPfx.data.length := by
    refine map_dash_eq_self _ ?_
    rw [hsd]
    exact hnous
  have hdrop : nm.data.drop confPfx.data.length = sIp4Addr.data := by
    rw [← hself, hsd]
  have happ := charsPfx_eq_append confPfx.data nm.data hp
  apply string_data_inj
  rw [happ, hdrop]
  decide

/-! ### Claim C5 — ip-address annotation -/

/-- C5 counterexample: with the `ip-address` annotation present, the
rendered `ip4.addr` parameter need not equal it — a reserved-prefix
annotation `jetpack/jail.conf/ip4.addr` overrides it. -/
def sIpOther : String := "172.16.0.9"

def podOv : Pod :=
  {podA with Manifest := ⟨[], [], [], [⟨sIpAddress, sIp⟩, ⟨sIp4AnnoName, sIpOther⟩]⟩}

/-- C5 counterexample: `ip-address` is `10.0.0.5`, yet the built `ip4.addr`
parameter is `172.16.0.9` because the reserved-prefix annotation overrides
it. -/
theorem c5_ip4addr_override_counterexample :
    annoGet podOv.Manifest.Annos sIpAddress = some sIp ∧
    (jailConfParams podOv).map (fun ps => lookupKV ps sIp4Addr) = some (some sIpOther) ∧
    sIpOther ≠ sIp := by
  refine ⟨rfl, by decide, by decide⟩

/-- C5 (amended): building the jail configuration with no `ip-address`
annotation is fatal; with it present, the rendered `ip4.addr` parameter
equals the annotation value exactly, provided no reserved-prefix annotation
(`jetpack/jail.conf/ip4.addr`) overrides it. -/
theorem c5_ip_address_amended (c : Pod) :
    (annoGet c.Manifest.Annos sIpAddress = none → jailConf c = none) ∧
    (∀ ip, annoGet c.Manifest.Annos sIpAddress = some ip →
      (∀ a ∈ c.Manifest.Annos, a.Name ≠ sIp4AnnoName) →
      ∃ ps, jailConfParams c = some ps ∧ lookupKV ps sIp4Addr = some ip) := by
  constructor
  · intro h
    simp [jailConf, jailConfParams, h]
  · intro ip hip hno
    have hps : jailConfParams c = some (applyConfAnnos c.Manifest.Annos
        (mapSet (mapSet (baseParams c) sHostHostname (hostnameParam c)) sIp4Addr ip)) := by
      simp [jailConfParams, hip]
    refine ⟨_, hps, ?_⟩
    rw [lookupKV_applyConfAnnos]
    · exact lookupKV_mapSet_self _ _ _
    · intro a ha hp hd
      exact hno a ha (derived_ip4_name a.Name hp hd)

/-- C5 witness: on a pod whose only relevant annotation is
`ip-address = 10.0.0.5`, the built `ip4.addr` parameter is `10.0.0.5`. -/
theorem c5_ip_address_amended_witness :
    (jailConfParams podB).map (fun ps => lookupKV ps sIp4Addr) = some (some sIp) := by
  obtain ⟨ps, h1, h2⟩ := (c5_ip_address_amended podB).2 sIp rfl (by decide)
  rw [h1]
  simpa using h2

/-! ### Claim C7 — deterministic jail configuration -/

/-- C7: the jail configuration builder is deterministic — whatever order
the parameter table is enumerated in (Go map iteration order is arbitrary),
the rendered text is byte-identical, and its lines are sorted
lexicographically. -/
theorem c7_jailconf_deterministic (c : Pod) (ps ord1 ord2 : List (String × String))
    (_hps : jailConfParams c = some ps)
    (h1 : ord1.Perm ps) (h2 : ord2.Perm ps) :
    renderJailConf c ord1 = renderJailConf c ord2 ∧
    List.Sorted StrLe (sortStrings (ord1.map renderLine)) := by
  constructor
  · unfold renderJailConf
    rw [sortStrings_eq_of_perm ((h1.map renderLine).trans ((h2.map renderLine).symm))]
  · exact sortStrings_sorted _

/-- C7 witness: rendering the concrete pod's parameter table in reversed
order yields byte-identical text, and the lines are sorted. -/
theorem c7_jailconf_deterministic_witness :
    renderJailConf podB (((jailConfParams podB).getD []).reverse) =
      renderJailConf podB ((jailConfParams podB).getD []) ∧
    List.Sorted StrLe
      (sortStrings ((((jailConfParams podB).getD []).reverse).map renderLine)) :=
  c7_jailconf_deterministic podB ((jailConfParams podB).getD [])
    (((jailConfParams podB).getD []).reverse) ((jailConfParams podB).getD [])
    (by decide) (List.reverse_perm _) (List.Perm.refl _)

/-! ### Mount Resolver lemmas -/

theorem resolveMount_ok (env : PrepEnv) (c : Pod) (imgApp : ImgApp) (mnt : Mount)
    (hmk : ∀ p, env.mkdirOk p = true)
    (hcm : ∀ p, env.chmodOk p = true)
    (hco : ∀ p, env.chownOk p = true)
    (hst : ∀ p, env.stat p ≠ .err)
    (hv : (findVolume c.Manifest.Volumes mnt.Volume).isSome)
    (hmp : (findMountPoint imgApp.MountPoints mnt.MountPoint).isSome) :
    ∃ effs, resolveMount env c imgApp mnt = (.ok (fstabLineFor c imgApp mnt), effs) := by
  obtain ⟨⟨volNo, vol⟩, hv'⟩ := Option.isSome_iff_exists.mp hv
  obtain ⟨mp, hmp'⟩ := Option.isSome_iff_exists.mp hmp
  simp only [resolveMount, fstabLineFor, hv', hmp']
  by_cases hk : vol.Kind = sEmpty
  · simp only [if_pos hk, hmk, if_true]
    cases hstat : env.stat (c.Path [sRootfs, mp.Path]) with
    | err => exact absurd hstat (hst _)
    | notExist =>
      exact ⟨[.mkdirAll (c.Path [sVolumes, toString volNo]) 0o700], by simp [hstat]⟩
    | ok st =>
      exact ⟨[.mkdirAll (c.Path [sVolumes, toString volNo]) 0o700,
        .chmod (c.Path [sVolumes, toString volNo]) (Nat.land st.Mode 0o7777),
        .chown (c.Path [sVolumes, toString volNo]) st.Uid st.Gid],
        by simp [hstat, hcm, hco]⟩
  · simp only [if_neg hk]
    exact ⟨[], rfl⟩

theorem processMounts_ok (env : PrepEnv) (c : Pod) (imgApp : ImgApp)
    (hmk : ∀ p, env.mkdirOk p = true)
    (hcm : ∀ p, env.chmodOk p = true)
    (hco : ∀ p, env.chownOk p = true)
    (hst : ∀ p, env.stat p ≠ .err) :
    ∀ (mounts : List Mount) (fstab fulfilled : List String) (effs : List FSOp),
    (∀ mnt ∈ mounts, (findVolume c.Manifest.Volumes mnt.Volume).isSome ∧
      (findMountPoint imgApp.MountPoints mnt.MountPoint).isSome) →
    ∃ effs2, processMounts env c imgApp mounts fstab fulfilled effs =
      (.ok (fstab ++ mounts.map (fstabLineFor c imgApp),
            fulfilled ++ mounts.map Mount.MountPoint), effs2)
  | [], fstab, fulfilled, effs, _ => ⟨effs, by simp [processMounts]⟩
  | mnt :: rest, fstab, fulfilled, effs, hres => by
    obtain ⟨e1, h1⟩ := resolveMount_ok env c imgApp mnt hmk hcm hco hst
      (hres mnt (by simp)).1 (hres mnt (by simp)).2
    obtain ⟨e2, h2⟩ := processMounts_ok env c imgApp hmk hcm hco hst rest
      (fstab ++ [fstabLineFor c imgApp mnt]) (fulfilled ++ [mnt.MountPoint]) (effs ++ e1)
      (fun m hm => hres m (by simp [hm]))
    refine ⟨e2, ?_⟩
    simp only [processMounts, h1]
    rw [h2]
    simp [List.append_assoc]

theorem jailConfParams_isSome (c : Pod) (h : annoGet c.Manifest.Annos sIpAddress ≠ none) :
    ∃ ps, jailConfParams c = some ps := by
  unfold jailConfParams
  cases hx : annoGet c.Manifest.Annos sIpAddress with
  | none => exact absurd hx h
  | some ip => exact ⟨_, rfl⟩

theorem finishConf_ok (env : PrepEnv) (c : Pod) (fstab : List String) (effs : List FSOp)
    (hw : ∀ p, env.writeOk p = true)
    (hip : annoGet c.Manifest.Annos sIpAddress ≠ none) :
    ∃ effs2, finishConf env c fstab effs = (.ok (c, fstab), effs2) := by
  obtain ⟨ps, hps⟩ := jailConfParams_isSome c hip
  refine ⟨effs ++ [.writeFile (c.Path [sJailConfFile]) (renderJailConf c ps) 0o400], ?_⟩
  unfold finishConf
  rw [hps]
  simp [hw]

theorem finishJail_ok (env : PrepEnv) (c : Pod) (fstab : List String) (effs : List FSOp)
    (hw : ∀ p, env.writeOk p = true)
    (hip : annoGet c.Manifest.Annos sIpAddress ≠ none) :
    ∃ cPost effs2, finishJail env c fstab effs = (.ok (cPost, fstab), effs2) := by
  unfold finishJail
  by_cases hf : fstab.isEmpty
  · rw [if_pos hf]
    obtain ⟨e2, h2⟩ := finishConf_ok env c fstab effs hw hip
    exact ⟨c, e2, h2⟩
  · rw [if_neg hf]
    simp only [hw, if_true]
    have hip' : annoGet (annoSet c.Manifest.Annos sFstabAnnoKey
        (c.Path [sFstabFile])) sIpAddress ≠ none := by
      rw [annoGet_annoSet_ne _ _ _ _ (by decide)]
      exact hip
    obtain ⟨e2, h2⟩ := finishConf_ok env
      {c with Manifest :=
        {c.Manifest with Annos := annoSet c.Manifest.Annos sFstabAnnoKey (c.Path [sFstabFile])}}
      fstab (effs ++ [.writeFile (c.Path [sFstabFile]) (String.join fstab) 0o600]) hw hip'
    exact ⟨_, e2, h2⟩

/-! ### Claims C2, C3, C4 — Mount Resolver -/

/-- C2: for a single-app manifest whose image resolves, has an app
template, and whose bindings and mount points all resolve (with the OS
cooperating), `prepJail` succeeds and the produced mount table is exactly
the Linux-compat lines (exactly two, present iff the image's os label is
`linux`) followed by exactly one line per declared Mount binding, in the
manifest's declaration order. -/
theorem c2_fstab_lines (env : PrepEnv) (c : Pod) (app : RuntimeApp) (img : Image)
    (imgApp : ImgApp) (bb : String)
    (happ : c.Manifest.Apps = [app])
    (himg : env.images app.ImageID = some img)
    (htpl : img.Manifest.App = some imgApp)
    (hrc : env.resolvConf = some bb)
    (hw : ∀ p, env.writeOk p = true)
    (hmk : ∀ p, env.mkdirOk p = true)
    (hcm : ∀ p, env.chmodOk p = true)
    (hco : ∀ p, env.chownOk p = true)
    (hst : ∀ p, env.stat p ≠ .err)
    (hmnt : ∀ mnt ∈ app.Mounts, (findVolume c.Manifest.Volumes mnt.Volume).isSome ∧
      (findMountPoint imgApp.MountPoints mnt.MountPoint).isSome)
    (hful : missingMountPoints imgApp app.Mounts = [])
    (hip : annoGet c.Manifest.Annos sIpAddress ≠ none) :
    ((prepJail env c).1).map Prod.snd =
      .ok (compatLinesFor c img ++ app.Mounts.map (fstabLineFor c imgApp)) := by
  obtain ⟨e2, hpm⟩ := processMounts_ok env c imgApp hmk hcm hco hst app.Mounts
    (compatLinesFor c img) [] [FSOp.writeFile (c.Path [sResolvRel]) bb 0o644] hmnt
  unfold missingMountPoints at hful
  simp only [prepJail, happ, prepJailApp, himg, hrc, hw, if_true, htpl, hpm,
    List.nil_append, hful, List.isEmpty_nil]
  obtain ⟨cp, e3, hfin⟩ := finishJail_ok env c
    (compatLinesFor c img ++ app.Mounts.map (fstabLineFor c imgApp)) e2 hw hip
  rw [hfin]
  rfl

/-- C3: if the image's template declares mount points that the manifest's
bindings leave unfulfilled (while every binding itself resolves), `prepJail`
fails with `UnfulfilledMountPoints` listing every missing name. -/
theorem c3_unfulfilled_mount_points (env : PrepEnv) (c : Pod) (app : RuntimeApp)
    (img : Image) (imgApp : ImgApp) (bb : String)
    (happ : c.Manifest.Apps = [app])
    (himg : env.images app.ImageID = some img)
    (htpl : img.Manifest.App = some imgApp)
    (hrc : env.resolvConf = some bb)
    (hw : ∀ p, env.writeOk p = true)
    (hmk : ∀ p, env.mkdirOk p = true)
    (hcm : ∀ p, env.chmodOk p = true)
    (hco : ∀ p, env.chownOk p = true)
    (hst : ∀ p, env.stat p ≠ .err)
    (hmnt : ∀ mnt ∈ app.Mounts, (findVolume c.Manifest.Volumes mnt.Volume).isSome ∧
      (findMountPoint imgApp.MountPoints mnt.MountPoint).isSome)
    (hmiss : missingMountPoints imgApp app.Mounts ≠ []) :
    (prepJail env c).1 =
      .error (.unfulfilled img.Manifest.Name (missingMountPoints imgApp app.Mounts)) := by
  obtain ⟨e2, hpm⟩ := processMounts_ok env c imgApp hmk hcm hco hst app.Mounts
    (compatLinesFor c img) [] [FSOp.writeFile (c.Path [sResolvRel]) bb 0o644] hmnt
  unfold missingMountPoints at hmiss ⊢
  simp only [prepJail, happ, prepJailApp, himg, hrc, hw, if_true, htpl, hpm,
    List.nil_append]
  rw [if_neg (by simpa [List.isEmpty_iff] using hmiss)]

/-- C4 counterexample data: a binding to a volume that is not declared. -/
def sData : String := "data"

def sConfig : String := "config"

def sDataPath : String := "/var/data"

def sConfigPath : String := "/etc/app"

def sHostKind : String := "host"

def sHostSrc : String := "/h/data"

def sImgName : String := "example.com/img"

def resolvContent : String := "nameserver 1.1.1.1"

def mpData : MountPoint := ⟨sData, sDataPath, false⟩

def mpConfig : MountPoint := ⟨sConfig, sConfigPath, false⟩

def imgAppD : ImgApp := ⟨[mpData]⟩

def imgAppDC : ImgApp := ⟨[mpData, mpConfig]⟩

def volData : Volume := ⟨sData, sHostKind, sHostSrc, none⟩

def mntData : Mount := ⟨sData, sData⟩

def appD : RuntimeApp := ⟨sApp1, sImgHash, [mntData]⟩

def imgLin : Image := ⟨⟨sImgName, some sLinux, some imgAppD⟩⟩

def imgDC : Image := ⟨⟨sImgName, none, some imgAppDC⟩⟩

def envC2 : PrepEnv :=
  ⟨fun _ => some imgLin, some resolvContent, fun _ => .notExist,
   fun _ => true, fun _ => true, fun _ => true, fun _ => true⟩

def envC3 : PrepEnv := {envC2 with images := fun _ => some imgDC}

/-- A pod binding `data` against a host-path volume, with an IP annotation. -/
def podC2 : Pod := {podA with Manifest := ⟨[appD], [volData], [], [annoIp]⟩}

/-- A pod binding `data` while declaring no volumes at all. -/
def podC4 : Pod := {podA with Manifest := ⟨[appD], [], [], [annoIp]⟩}

/-- C2 witness: a linux-labelled image with one fulfilled binding yields
exactly the two compat lines followed by the one binding line. -/
theorem c2_fstab_lines_witness :
    ((prepJail envC2 podC2).1).map Prod.snd =
      .ok (compatLinesFor podC2 imgLin ++ appD.Mounts.map (fstabLineFor podC2 imgAppD)) :=
  c2_fstab_lines envC2 podC2 appD imgLin imgAppD resolvContent rfl rfl rfl rfl
    (fun _ => rfl) (fun _ => rfl) (fun _ => rfl) (fun _ => rfl) (fun _ h => nomatch h)
    (by decide) rfl (by decide)

/-- C3 witness: an image declaring mount points `data` and `config` with a
manifest binding only `data` fails listing exactly `config`. -/
theorem c3_unfulfilled_mount_points_witness :
    (prepJail envC3 podC2).1 = .error (.unfulfilled sImgName [sConfig]) :=
  c3_unfulfilled_mount_points envC3 podC2 appD imgDC imgAppDC resolvContent rfl rfl rfl rfl
    (fun _ => rfl) (fun _ => rfl) (fun _ => rfl) (fun _ => rfl) (fun _ h => nomatch h)
    (by decide) (by decide)

/-- C4 counterexample: a Mount naming an undeclared volume does fail with a
volume-not-found error, but a filesystem mutation (the resolv.conf copy
into the pod's root) has already occurred at the point of failure, so the
claim's "no filesystem mutation has occurred" is false. -/
theorem c4_mutation_before_volume_check_counterexample :
    (prepJail envC3 podC4).1 = .error (.volumeNotFound sData) ∧
    (prepJail envC3 podC4).2 =
      [FSOp.writeFile (podC4.Path [sResolvRel]) resolvContent 0o644] := by
  constructor
  · rfl
  · rfl

/-- C4 (amended): a Mount whose volume name matches no manifest volume
makes `prepJail` fail with a volume-not-found error; the binding loop
itself has performed no mutation, but the resolv.conf copy into the pod's
root has already happened — when the unknown-volume binding is the first,
the mutation log at failure is exactly that one write. -/
theorem c4_volume_not_found_amended (env : PrepEnv) (c : Pod) (app : RuntimeApp)
    (img : Image) (imgApp : ImgApp) (bb : String) (mnt : Mount) (rest : List Mount)
    (happ : c.Manifest.Apps = [app])
    (himg : env.images app.ImageID = some img)
    (htpl : img.Manifest.App = some imgApp)
    (hrc : env.resolvConf = some bb)
    (hwr : env.writeOk (c.Path [sResolvRel]) = true)
    (hm : app.Mounts = mnt :: rest)
    (hvol : findVolume c.Manifest.Volumes mnt.Volume = none) :
    prepJail env c = (.error (.volumeNotFound mnt.Volume),
      [.writeFile (c.Path [sResolvRel]) bb 0o644]) := by
  simp [prepJail, happ, prepJailApp, himg, hrc, hwr, htpl, hm, processMounts,
    resolveMount, hvol]

/-- C4 amended-claim witness: at the concrete pod with no declared volumes,
the failure carries exactly the resolv.conf write in its mutation log. -/
theorem c4_volume_not_found_amended_witness :
    prepJail envC3 podC4 = (.error (.volumeNotFound sData),
      [.writeFile (podC4.Path [sResolvRel]) resolvContent 0o644]) :=
  c4_volume_not_found_amended envC3 podC4 appD imgDC imgAppDC resolvContent mntData []
    rfl rfl rfl rfl rfl rfl rfl

end Jetpack
